import Mathlib

/-!
Shallow embedding of the Tic-Tac-Toe backend core
(`app/core/game_engine.py`, `app/services/ai_service.py`,
`app/services/game_service.py`) and proofs of the specified properties.

A board is the 9-character string of the source, modelled as a `List Cell`;
Python's `board[i]` on an in-range index is `List.getD i Cell.E`, and
Python list assignment (which supports negative indices and raises
`IndexError` out of range) is modelled by the fallible `pyListSet`.
-/

namespace TicTacToe

/-- A board cell: the characters `'X'`, `'O'` and `' '` of the source. -/
inductive Cell
  | X
  | O
  | E
deriving DecidableEq, Repr

/-- `app/models.py` `Player`: the enum with values `"X"` and `"O"`. -/
inductive Player
  | X
  | O
deriving DecidableEq, Repr

/-- The board character written for a player (`player.value` in the source). -/
def Player.toCell : Player → Cell
  | Player.X => Cell.X
  | Player.O => Cell.O

/-- `Player(positions[0])` of the source: the player named by a non-blank
board character; `none` on the blank character. -/
def Cell.toPlayer : Cell → Option Player
  | Cell.X => some Player.X
  | Cell.O => some Player.O
  | Cell.E => none

/-- `app/models.py` `GameStatus`. -/
inductive GameStatus
  | IN_PROGRESS
  | FINISHED
  | DRAW
deriving DecidableEq, Repr

/-- `app/models.py` `Difficulty`; it only ever changes prompt wording. -/
inductive Difficulty
  | EASY
  | MEDIUM
  | HARD
deriving DecidableEq, Repr

/-- Python list assignment `l[i] = v`: a non-negative index must be below the
length, a negative index `i` addresses `len + i` and must satisfy
`-len ≤ i`; any other index raises `IndexError` (modelled as `none`). -/
def pyListSet (l : List Cell) (i : Int) (v : Cell) : Option (List Cell) :=
  if 0 ≤ i then
    if i.toNat < l.length then some (l.set i.toNat v) else none
  else
    if (-i).toNat ≤ l.length then
      some (l.set (l.length - (-i).toNat) v)
    else none

namespace GameEngine

/-- `GameEngine.WIN_COMBINATIONS`: rows, columns, diagonals, in source order. -/
def WIN_COMBINATIONS : List (List Nat) :=
  [[0, 1, 2], [3, 4, 5], [6, 7, 8],
   [0, 3, 6], [1, 4, 7], [2, 5, 8],
   [0, 4, 8], [2, 4, 6]]

/-- `GameEngine.is_valid_move`: positions outside `[0, 8]` are rejected
before any indexing; otherwise the addressed cell must be blank. -/
def is_valid_move (board : List Cell) (position : Int) : Bool :=
  if position < 0 ∨ position > 8 then false
  else decide (board.getD position.toNat Cell.E = Cell.E)

/-- `GameEngine.make_move`: `board_list[position] = player.value` with
Python indexing semantics (no bounds or occupancy check of its own). -/
def make_move (board : List Cell) (position : Int) (player : Player) :
    Option (List Cell) :=
  pyListSet board position player.toCell

/-- The cells of a line: `[board[i] for i in combo]`. -/
def lineCells (board : List Cell) (combo : List Nat) : List Cell :=
  combo.map (fun i => board.getD i Cell.E)

/-- One iteration of `check_winner`'s loop: the winner a single combination
yields, requiring its first cell non-blank and all three cells equal. -/
def comboWinner (board : List Cell) (combo : List Nat) : Option Player :=
  match lineCells board combo with
  | [p0, p1, p2] =>
      if p0 ≠ Cell.E ∧ p0 = p1 ∧ p1 = p2 then p0.toPlayer else none
  | _ => none

/-- The loop of `GameEngine.check_winner` over a list of combinations:
return on the first combination with a winner, else fall through. -/
def check_winner_aux (board : List Cell) : List (List Nat) → Option Player
  | [] => none
  | combo :: rest =>
      match comboWinner board combo with
      | some p => some p
      | none => check_winner_aux board rest

/-- `GameEngine.check_winner`: first winning combination in the fixed
enumeration order, else `None`. -/
def check_winner (board : List Cell) : Option Player :=
  check_winner_aux board WIN_COMBINATIONS

/-- `GameEngine.is_board_full`: `" " not in board`. -/
def is_board_full (board : List Cell) : Bool :=
  decide (Cell.E ∉ board)

/-- `GameEngine.get_available_moves`: ascending indices of blank cells. -/
def get_available_moves (board : List Cell) : List Nat :=
  (List.range board.length).filter (fun i => board.getD i Cell.E = Cell.E)

end GameEngine

namespace AIService

/-- The `lines` list of `AIService._analyze_threats` (textually identical to
`WIN_COMBINATIONS`, re-declared in the source). -/
def lines : List (List Nat) :=
  [[0, 1, 2], [3, 4, 5], [6, 7, 8],
   [0, 3, 6], [1, 4, 7], [2, 5, 8],
   [0, 4, 8], [2, 4, 6]]

/-- The result dictionary built by `AIService._analyze_threats`. -/
structure ThreatResult where
  opponent_can_win : Bool
  opponent_win_pos : Option Nat
  you_can_win : Bool
  your_win_pos : Option Nat
deriving DecidableEq, Repr

/-- One iteration of `_analyze_threats`' loop over a line: record a
two-of-mark-plus-blank line for the opponent and for the player, each time
overwriting the position with `line[cells.index(" ")]`. -/
def threatStep (board : List Cell) (opponent player : Cell)
    (r : ThreatResult) (line : List Nat) : ThreatResult :=
  let cells := GameEngine.lineCells board line
  let r1 :=
    if cells.count opponent = 2 ∧ cells.count Cell.E = 1 then
      { r with
        opponent_can_win := true
        opponent_win_pos := some (line.getD (cells.indexOf Cell.E) 0) }
    else r
  if cells.count player = 2 ∧ cells.count Cell.E = 1 then
    { r1 with
      you_can_win := true
      your_win_pos := some (line.getD (cells.indexOf Cell.E) 0) }
  else r1

/-- `AIService._analyze_threats`: fold the per-line update over the 8 lines
starting from the all-false, all-`None` dictionary. -/
def analyze_threats (board : List Cell) (opponent player : Cell) :
    ThreatResult :=
  lines.foldl (threatStep board opponent player)
    ⟨false, none, false, none⟩

/-- The observable outcome of one transport call in `_call_api`:
a non-success HTTP status (`raise_for_status`), a response whose JSON lacks
the `choices[0].message.content` structure, or a content string. -/
inductive ApiResponse
  | httpError
  | malformed
  | ok (content : String)

/-- The two failure kinds `_call_api` can produce: an `httpx` transport
error, or the `AIServiceException` raised for an unparseable response. -/
inductive CallErr
  | transport
  | parse
deriving DecidableEq, Repr

/-- `re.search(r"\d", content)` then `int(match.group())`: the value of the
first digit character of the text, if any. -/
def firstDigit (s : String) : Option Nat :=
  (s.toList.find? (fun c => c.isDigit)).map (fun c => c.toNat - 48)

/-- `AIService._call_api` given the transport outcome: a non-success status
is a transport error; a malformed structure (`KeyError`/`IndexError`) or a
digit-free content string is a parse failure (`AIServiceException`);
otherwise the first digit of the content is the move. -/
def call_api (resp : ApiResponse) : Except CallErr Int :=
  match resp with
  | ApiResponse.httpError => Except.error CallErr.transport
  | ApiResponse.malformed => Except.error CallErr.parse
  | ApiResponse.ok content =>
      match firstDigit content with
      | none => Except.error CallErr.parse
      | some d => Except.ok (d : Int)

/-- `AIService._is_valid_move`: in `[0, 8]` and addressing a blank cell. -/
def ai_is_valid_move (board : List Cell) (move : Int) : Bool :=
  if move < 0 ∨ move > 8 then false
  else decide (board.getD move.toNat Cell.E = Cell.E)

/-- The failure kinds of `get_move`; every one is raised as
`AIServiceException` in the source, distinguished here by its message. -/
inductive AIErr
  | invalidMove
  | transport
  | parse
  | maxRetries
deriving DecidableEq, Repr

/-- The retry loop `for attempt in range(self.max_retries)` of
`AIService.get_move`, in fuel-passing form: `fuel` is the number of
attempts still allowed (`max_retries - attempt`), `attempt` the index of
the current attempt, `responses` the environment giving the transport
outcome of each successive `_call_api` call. Returns the outcome together
with the number of `_call_api` calls performed. A valid parsed move
returns; an invalid parsed move retries while an attempt remains, else
raises `invalidMove`; a transport error retries while an attempt remains,
else raises `transport`; the `AIServiceException` of a parse failure is
not caught by the loop (only `httpx` errors are) and propagates at once. -/
def get_move_loop (board : List Cell) (responses : Nat → ApiResponse)
    (attempt : Nat) : Nat → Except AIErr Int × Nat
  | 0 => (Except.error AIErr.maxRetries, 0)
  | fuel + 1 =>
      match call_api (responses attempt) with
      | Except.ok move =>
          if ai_is_valid_move board move then (Except.ok move, 1)
          else if fuel ≠ 0 then
            let r := get_move_loop board responses (attempt + 1) fuel
            (r.1, r.2 + 1)
          else (Except.error AIErr.invalidMove, 1)
      | Except.error CallErr.transport =>
          if fuel ≠ 0 then
            let r := get_move_loop board responses (attempt + 1) fuel
            (r.1, r.2 + 1)
          else (Except.error AIErr.transport, 1)
      | Except.error CallErr.parse => (Except.error AIErr.parse, 1)

/-- `AIService.get_move`: fast path first — if the player has a line with
two own marks and a blank, return that blank immediately with zero
transport calls; otherwise run the bounded retry loop. The second
component counts the `_call_api` calls performed. -/
def get_move (board : List Cell) (player : Player)
    (difficulty : Difficulty) (responses : Nat → ApiResponse)
    (max_retries : Nat) : Except AIErr Int × Nat :=
  let opponent_mark := if player = Player.O then Cell.X else Cell.O
  let player_mark := player.toCell
  let quick_threats := analyze_threats board opponent_mark player_mark
  if quick_threats.you_can_win then
    (Except.ok ((quick_threats.your_win_pos.getD 0 : Nat) : Int), 0)
  else get_move_loop board responses 0 max_retries

end AIService

namespace GameService

/-- The persisted columns of the `Game` row that the move protocol touches
(`app/models.py` `Game`); timestamps are abstract instants. -/
structure Game where
  id : Nat
  user_id : Nat
  board : List Cell
  status : GameStatus
  current_player : Player
  winner : Option Player
  difficulty : Difficulty
  created_at : Nat
  updated_at : Nat
deriving DecidableEq, Repr

/-- A persisted `Move` row. -/
structure MoveRow where
  game_id : Nat
  position : Int
  player : Player
deriving DecidableEq, Repr

/-- The `MovePublic` response schema. -/
structure MovePublic where
  position : Int
  player : Player
  board : List Cell
  status : GameStatus
  winner : Option Player
  ai_move : Option Int
deriving DecidableEq, Repr

/-- The exceptions `GameService.make_move` can raise (`NotFound` is the
repository lookup, outside this model of a fetched record). `engineIndex`
is the Python `IndexError` of an out-of-range board assignment, unreachable
behind validation. -/
inductive SvcErr
  | gameOver
  | invalidMove
  | oracle (e : AIService.AIErr)
  | engineIndex
deriving DecidableEq, Repr

/-- What one `make_move` call leaves behind. `committedGame` and
`committedMoves` are what is durably persisted when the call returns or
raises: the session dependency (`get_db`) never commits, so rows mutated
or added but not committed before an exception are discarded when the
session closes. `oracleCalls` counts invocations of
`ai_service.get_move`. -/
structure MoveOutcome where
  committedGame : Game
  committedMoves : List MoveRow
  result : Except SvcErr MovePublic
  oracleCalls : Nat
deriving Repr

/-- `GameService.create_game`: empty board, `IN_PROGRESS`, `current_player
= X`. `created_at` and `updated_at` are each filled by their own
`default_factory=lambda: datetime.now(timezone.utc)` call — two separate
clock samples, modelled as two independent instants `t_created` and
`t_updated` that need not be equal. -/
def create_game (user_id : Nat) (difficulty : Difficulty)
    (id t_created t_updated : Nat) : Game :=
  { id := id
    user_id := user_id
    board := List.replicate 9 Cell.E
    status := GameStatus.IN_PROGRESS
    current_player := Player.X
    winner := none
    difficulty := difficulty
    created_at := t_created
    updated_at := t_updated }

/-- `GameService.make_move` on a fetched game row. The human always plays
`X`. Commit points follow the source exactly: the human-win and draw
branches commit before returning; the common path commits only after the
oracle branch, so an oracle failure propagates with nothing committed.
The check `game.opponent_type == OpponentType.AI` guarding the oracle
branch cannot be modelled from `models.py` — `OpponentType` and the
`opponent_type` column are absent there. Modelled from the spec: §4.2
step 6 always consults the oracle for the automated player. -/
def make_move (game : Game) (position : Int)
    (responses : Nat → AIService.ApiResponse) (max_retries : Nat) :
    MoveOutcome :=
  if game.status ≠ GameStatus.IN_PROGRESS then
    ⟨game, [], Except.error SvcErr.gameOver, 0⟩
  else if ¬ GameEngine.is_valid_move game.board position then
    ⟨game, [], Except.error SvcErr.invalidMove, 0⟩
  else
    match GameEngine.make_move game.board position Player.X with
    | none => ⟨game, [], Except.error SvcErr.engineIndex, 0⟩
    | some b1 =>
        let humanMove : MoveRow := ⟨game.id, position, Player.X⟩
        match GameEngine.check_winner b1 with
        | some w =>
            let g1 := { game with
              board := b1, status := GameStatus.FINISHED, winner := some w }
            ⟨g1, [humanMove],
              Except.ok ⟨position, Player.X, b1, GameStatus.FINISHED,
                some w, none⟩, 0⟩
        | none =>
            if GameEngine.is_board_full b1 then
              let g1 := { game with board := b1, status := GameStatus.DRAW }
              ⟨g1, [humanMove],
                Except.ok ⟨position, Player.X, b1, GameStatus.DRAW,
                  none, none⟩, 0⟩
            else
              match AIService.get_move b1 Player.O game.difficulty
                  responses max_retries with
              | (Except.error e, _) =>
                  ⟨game, [], Except.error (SvcErr.oracle e), 1⟩
              | (Except.ok ai_position, _) =>
                  match GameEngine.make_move b1 ai_position Player.O with
                  | none => ⟨game, [], Except.error SvcErr.engineIndex, 1⟩
                  | some b2 =>
                      let aiMove : MoveRow := ⟨game.id, ai_position, Player.O⟩
                      let sw :=
                        match GameEngine.check_winner b2 with
                        | some w2 => (GameStatus.FINISHED, some w2)
                        | none =>
                            if GameEngine.is_board_full b2 then
                              (GameStatus.DRAW, game.winner)
                            else (game.status, game.winner)
                      let g1 := { game with
                        board := b2, status := sw.1, winner := sw.2 }
                      ⟨g1, [humanMove, aiMove],
                        Except.ok ⟨position, Player.X, b2, sw.1, sw.2,
                          some ai_position⟩, 1⟩

/-- Insertion step of `ORDER BY created_at DESC`. -/
def insertByCreatedDesc (g : Game) : List Game → List Game
  | [] => [g]
  | h :: t =>
      if h.created_at ≤ g.created_at then g :: h :: t
      else h :: insertByCreatedDesc g t

/-- `ORDER BY Game.created_at DESC` over the filtered rows. -/
def sortByCreatedDesc (l : List Game) : List Game :=
  l.foldr insertByCreatedDesc []

/-- `GameService.list_games`: the caller's rows, ordered by `created_at`
descending, then `OFFSET skip LIMIT limit`. -/
def list_games (games : List Game) (user_id : Nat) (skip limit : Nat) :
    List Game :=
  ((sortByCreatedDesc
      (games.filter (fun g => g.user_id = user_id))).drop skip).take limit

/-- Game rows producible by this service: created by `create_game` and then
mutated only by what `make_move` commits (failed calls commit nothing and
leave the row as it was). -/
inductive Reachable : Game → Prop
  | create (user_id : Nat) (difficulty : Difficulty)
      (id t_created t_updated : Nat) :
      Reachable (create_game user_id difficulty id t_created t_updated)
  | step (g : Game) (position : Int)
      (responses : Nat → AIService.ApiResponse) (max_retries : Nat) :
      Reachable g →
      Reachable (make_move g position responses max_retries).committedGame

/-- The mark whose turn it is, determined by cell counts: `X` moves first,
so with equal counts it is `X`'s turn, otherwise `O`'s. -/
def parityPlayer (board : List Cell) : Player :=
  if board.count Cell.X = board.count Cell.O then Player.X else Player.O

end GameService

/-! ### Helper lemmas: lists, cells, the engine primitives -/

theorem Player.toCell_ne_E (p : Player) : p.toCell ≠ Cell.E := by
  cases p <;> simp [Player.toCell]

theorem Player.toCell_inj {p q : Player} (h : p.toCell = q.toCell) : p = q := by
  cases p <;> cases q <;> simp_all [Player.toCell]

theorem Cell.toPlayer_toCell (p : Player) : p.toCell.toPlayer = some p := by
  cases p <;> rfl

theorem List.getD_set_self (l : List Cell) (i : Nat) (v d : Cell)
    (h : i < l.length) : (l.set i v).getD i d = v := by
  rw [List.getD_eq_getElem?_getD, List.getElem?_set_self h]
  rfl

theorem List.getD_set_ne (l : List Cell) {i j : Nat} (hij : i ≠ j)
    (v d : Cell) : (l.set i v).getD j d = l.getD j d := by
  rw [List.getD_eq_getElem?_getD, List.getElem?_set_ne hij,
    ← List.getD_eq_getElem?_getD]

theorem List.count_set_incr (l : List Cell) (i : Nat) (v : Cell)
    (h : i < l.length) (hold : l.getD i Cell.E ≠ v) :
    (l.set i v).count v = l.count v + 1 := by
  induction l generalizing i with
  | nil => simp at h
  | cons a t ih =>
      cases i with
      | zero => simp_all [List.count_cons, List.getD]
      | succ n =>
          simp only [List.set, List.count_cons]
          rw [ih n (by simpa using h) (by simpa [List.getD] using hold)]
          omega

theorem List.count_set_other (l : List Cell) (i : Nat) (v c : Cell)
    (hold : l.getD i Cell.E ≠ c) (hv : v ≠ c) :
    (l.set i v).count c = l.count c := by
  induction l generalizing i with
  | nil => simp
  | cons a t ih =>
      cases i with
      | zero => simp_all [List.count_cons, List.getD]
      | succ n =>
          simp only [List.set, List.count_cons]
          rw [ih n (by simpa [List.getD] using hold)]

namespace GameEngine

/-- Unpacking a successful validity check. -/
theorem is_valid_move_iff (board : List Cell) (position : Int) :
    is_valid_move board position = true ↔
      0 ≤ position ∧ position ≤ 8 ∧
        board.getD position.toNat Cell.E = Cell.E := by
  unfold is_valid_move
  split
  · constructor
    · intro h; cases h
    · intro ⟨h1, h2, _⟩; omega
  · simp only [decide_eq_true_eq]
    constructor
    · intro h; refine ⟨by omega, by omega, h⟩
    · intro ⟨_, _, h⟩; exact h

/-- A validated move writes exactly the addressed cell. -/
theorem make_move_of_valid (board : List Cell) (position : Int) (p : Player)
    (hlen : board.length = 9) (h : is_valid_move board position = true) :
    make_move board position p =
      some (board.set position.toNat p.toCell) := by
  obtain ⟨h0, h8, _⟩ := (is_valid_move_iff board position).mp h
  unfold make_move pyListSet
  rw [if_pos h0, if_pos (by omega)]

/-- A successful `make_move` on an in-range non-negative position. -/
theorem make_move_nonneg (board : List Cell) (position : Int) (p : Player)
    (h0 : 0 ≤ position) (hlt : position.toNat < board.length) :
    make_move board position p =
      some (board.set position.toNat p.toCell) := by
  unfold make_move pyListSet
  rw [if_pos h0, if_pos hlt]

/-- The spec-side reading of a winning line: every cell of the combination
holds the player's mark (hence equal and non-empty). -/
def lineFilledWith (board : List Cell) (combo : List Nat) (m : Player) :
    Prop :=
  ∀ i ∈ combo, board.getD i Cell.E = m.toCell

instance (board : List Cell) (combo : List Nat) (m : Player) :
    Decidable (lineFilledWith board combo m) := by
  unfold lineFilledWith; infer_instance

/-- The guarded conversion of the loop body on three explicit cells. -/
theorem comboWinner_cells (x y z : Cell) (m : Player) :
    (if x ≠ Cell.E ∧ x = y ∧ y = z then x.toPlayer else none) = some m ↔
      x = m.toCell ∧ y = m.toCell ∧ z = m.toCell := by
  cases x <;> cases y <;> cases z <;> cases m <;> decide

/-- On a three-cell combination, the loop body finds the winner `m` exactly
when all three cells hold `m`'s mark. -/
theorem comboWinner_some_iff (board : List Cell) (i j k : Nat) (m : Player) :
    comboWinner board [i, j, k] = some m ↔
      lineFilledWith board [i, j, k] m := by
  show (if board.getD i Cell.E ≠ Cell.E ∧
      board.getD i Cell.E = board.getD j Cell.E ∧
      board.getD j Cell.E = board.getD k Cell.E
    then (board.getD i Cell.E).toPlayer else none) = some m ↔ _
  rw [comboWinner_cells]
  simp [lineFilledWith, List.forall_mem_cons]

/-- On a three-cell combination, the loop body finds nothing exactly when
no player fills the line. -/
theorem comboWinner_none_iff (board : List Cell) (i j k : Nat) :
    comboWinner board [i, j, k] = none ↔
      ∀ m : Player, ¬ lineFilledWith board [i, j, k] m := by
  constructor
  · intro h m hm
    rw [← comboWinner_some_iff] at hm
    rw [h] at hm
    exact Option.noConfusion hm
  · intro h
    cases hcw : comboWinner board [i, j, k] with
    | none => rfl
    | some m =>
        exact absurd ((comboWinner_some_iff board i j k m).mp hcw) (h m)

/-- The winner loop falls through exactly when every combination yields
nothing. -/
theorem check_winner_aux_eq_none_iff (board : List Cell)
    (cs : List (List Nat)) :
    check_winner_aux board cs = none ↔
      ∀ c ∈ cs, comboWinner board c = none := by
  induction cs with
  | nil => simp [check_winner_aux]
  | cons c rest ih =>
      unfold check_winner_aux
      cases h : comboWinner board c with
      | some p => simp [h]
      | none => simpa [h] using ih

/-- A winner returned by the loop comes from the first combination that
yields one: everything before it yields nothing. -/
theorem check_winner_aux_eq_some (board : List Cell) (cs : List (List Nat))
    (m : Player) (h : check_winner_aux board cs = some m) :
    ∃ l₁ c l₂, cs = l₁ ++ c :: l₂ ∧ comboWinner board c = some m ∧
      ∀ c' ∈ l₁, comboWinner board c' = none := by
  induction cs with
  | nil => cases h
  | cons c rest ih =>
      unfold check_winner_aux at h
      cases hc : comboWinner board c with
      | some p =>
          rw [hc] at h
          cases h
          exact ⟨[], c, rest, rfl, hc, by intro c' hc'; cases hc'⟩
      | none =>
          rw [hc] at h
          obtain ⟨l₁, c₀, l₂, heq, hw, hnone⟩ := ih h
          refine ⟨c :: l₁, c₀, l₂, by rw [heq]; rfl, hw, ?_⟩
          intro c' hc'
          rcases List.mem_cons.mp hc' with h' | h'
          · rw [h']; exact hc
          · exact hnone c' h'

/-- Every fixed winning combination is a three-cell triple with entries
below 9. -/
theorem win_combinations_shape :
    ∀ c ∈ WIN_COMBINATIONS, ∃ i j k, c = [i, j, k] ∧
      i < 9 ∧ j < 9 ∧ k < 9 := by
  intro c hc
  simp only [WIN_COMBINATIONS, List.mem_cons, List.not_mem_nil, or_false]
    at hc
  rcases hc with h | h | h | h | h | h | h | h <;> subst h <;>
    exact ⟨_, _, _, rfl, by omega, by omega, by omega⟩

/-- If the pre-move board has no winner, a winner appearing after one cell
is overwritten with `p`'s mark can only be `p` itself. -/
theorem check_winner_set (board : List Cell) (pos : Nat) (p w : Player)
    (hpos : pos < board.length)
    (hnone : check_winner board = none)
    (hsome : check_winner (board.set pos p.toCell) = some w) : w = p := by
  obtain ⟨l₁, c, l₂, heq, hw, -⟩ :=
    check_winner_aux_eq_some _ _ _ hsome
  have hc : c ∈ WIN_COMBINATIONS := by
    rw [heq]; exact List.mem_append_right _ (List.mem_cons_self _ _)
  have hcnone : comboWinner board c = none :=
    (check_winner_aux_eq_none_iff board WIN_COMBINATIONS).mp hnone c hc
  obtain ⟨i, j, k, hshape, -, -, -⟩ := win_combinations_shape c hc
  subst hshape
  have hfill := (comboWinner_some_iff _ i j k w).mp hw
  by_cases hi : pos = i
  · have := hfill i (by simp)
    rw [← hi, List.getD_set_self _ _ _ _ hpos] at this
    exact (Player.toCell_inj this).symm
  by_cases hj : pos = j
  · have := hfill j (by simp)
    rw [← hj, List.getD_set_self _ _ _ _ hpos] at this
    exact (Player.toCell_inj this).symm
  by_cases hk : pos = k
  · have := hfill k (by simp)
    rw [← hk, List.getD_set_self _ _ _ _ hpos] at this
    exact (Player.toCell_inj this).symm
  · exfalso
    apply (comboWinner_none_iff board i j k).mp hcnone w
    intro q hq
    have hq' : q = i ∨ q = j ∨ q = k := by simpa using hq
    have hne : pos ≠ q := by
      rcases hq' with rfl | rfl | rfl <;> assumption
    have := hfill q hq
    rwa [List.getD_set_ne _ hne] at this

end GameEngine

/-! ### Helper lemmas: threat analysis and the oracle fast path -/

namespace AIService

/-- `p` is the blank cell of some line on which `mark` occupies exactly the
other two cells: taking `p` wins at once. -/
def winningThreat (board : List Cell) (mark : Cell) (p : Nat) : Prop :=
  ∃ c ∈ lines,
    (GameEngine.lineCells board c).count mark = 2 ∧
    (GameEngine.lineCells board c).count Cell.E = 1 ∧
    p ∈ c ∧ board.getD p Cell.E = Cell.E

/-- The `lines` list of the threat analyzer is the engine's fixed
combination list. -/
theorem lines_eq : lines = GameEngine.WIN_COMBINATIONS := rfl

/-- `line[cells.index(" ")]` on a one-blank triple: the selected index
names the blank cell. -/
theorem triple_indexOf_spec (x y z : Cell) (h : [x, y, z].count Cell.E = 1)
    (i j k : Nat) :
    ([i, j, k].getD ([x, y, z].indexOf Cell.E) 0 = i ∧ x = Cell.E) ∨
    ([i, j, k].getD ([x, y, z].indexOf Cell.E) 0 = j ∧ y = Cell.E) ∨
    ([i, j, k].getD ([x, y, z].indexOf Cell.E) 0 = k ∧ z = Cell.E) := by
  cases x <;> cases y <;> cases z <;>
    first
      | exact absurd h (by decide)
      | exact Or.inl ⟨rfl, rfl⟩
      | exact Or.inr (Or.inl ⟨rfl, rfl⟩)
      | exact Or.inr (Or.inr ⟨rfl, rfl⟩)

/-- The position selected for a qualifying triple line is a blank cell of
that line. -/
theorem threat_pos_spec (board : List Cell) (i j k : Nat)
    (h : (GameEngine.lineCells board [i, j, k]).count Cell.E = 1) :
    [i, j, k].getD
        ((GameEngine.lineCells board [i, j, k]).indexOf Cell.E) 0 ∈
      [i, j, k] ∧
    board.getD
        ([i, j, k].getD
          ((GameEngine.lineCells board [i, j, k]).indexOf Cell.E) 0)
        Cell.E = Cell.E := by
  have hcells : GameEngine.lineCells board [i, j, k] =
      [board.getD i Cell.E, board.getD j Cell.E, board.getD k Cell.E] := rfl
  rw [hcells] at h ⊢
  rcases triple_indexOf_spec _ _ _ h i j k with ⟨hp, he⟩ | ⟨hp, he⟩ | ⟨hp, he⟩ <;>
    rw [hp] <;> exact ⟨by simp, he⟩

/-- The `you_can_win` flag after one loop iteration: already set, or the
line qualifies for the player. -/
theorem threatStep_you (board : List Cell) (opp pl : Cell)
    (r : ThreatResult) (line : List Nat) :
    (threatStep board opp pl r line).you_can_win = true ↔
      r.you_can_win = true ∨
        ((GameEngine.lineCells board line).count pl = 2 ∧
          (GameEngine.lineCells board line).count Cell.E = 1) := by
  unfold threatStep
  by_cases hpl : (GameEngine.lineCells board line).count pl = 2 ∧
      (GameEngine.lineCells board line).count Cell.E = 1
  · simp [hpl]
  · simp only [hpl, if_false, or_false]
    split <;> simp

/-- The `your_win_pos` field after one loop iteration. -/
theorem threatStep_pos (board : List Cell) (opp pl : Cell)
    (r : ThreatResult) (line : List Nat) :
    (threatStep board opp pl r line).your_win_pos =
      if (GameEngine.lineCells board line).count pl = 2 ∧
          (GameEngine.lineCells board line).count Cell.E = 1 then
        some (line.getD
          ((GameEngine.lineCells board line).indexOf Cell.E) 0)
      else r.your_win_pos := by
  unfold threatStep
  by_cases hpl : (GameEngine.lineCells board line).count pl = 2 ∧
      (GameEngine.lineCells board line).count Cell.E = 1
  · simp [hpl]
  · simp only [hpl, if_false]
    split <;> simp

/-- Folding the loop body never clears `you_can_win`. -/
theorem foldl_threat_mono (board : List Cell) (opp pl : Cell)
    (cs : List (List Nat)) (acc : ThreatResult)
    (h : acc.you_can_win = true) :
    (cs.foldl (threatStep board opp pl) acc).you_can_win = true := by
  induction cs generalizing acc with
  | nil => exact h
  | cons c rest ih =>
      exact ih _ ((threatStep_you board opp pl acc c).mpr (Or.inl h))

/-- A qualifying line anywhere in the fold input sets `you_can_win`. -/
theorem foldl_threat_complete (board : List Cell) (opp pl : Cell)
    (cs : List (List Nat)) (acc : ThreatResult) (c : List Nat)
    (hc : c ∈ cs)
    (hq : (GameEngine.lineCells board c).count pl = 2 ∧
      (GameEngine.lineCells board c).count Cell.E = 1) :
    (cs.foldl (threatStep board opp pl) acc).you_can_win = true := by
  induction cs generalizing acc with
  | nil => cases hc
  | cons c0 rest ih =>
      rcases List.mem_cons.mp hc with rfl | hmem
      · exact foldl_threat_mono board opp pl rest _
          ((threatStep_you board opp pl acc c).mpr (Or.inr hq))
      · exact ih _ hmem

/-- Whenever the fold reports `you_can_win`, `your_win_pos` names a blank
cell completing a line on which the player already has the other two. -/
theorem foldl_threat_sound (board : List Cell) (opp pl : Cell)
    (cs : List (List Nat)) (acc : ThreatResult)
    (hsub : ∀ c ∈ cs, c ∈ lines)
    (hacc : acc.you_can_win = true →
      ∃ p, acc.your_win_pos = some p ∧ winningThreat board pl p) :
    (cs.foldl (threatStep board opp pl) acc).you_can_win = true →
      ∃ p, (cs.foldl (threatStep board opp pl) acc).your_win_pos = some p ∧
        winningThreat board pl p := by
  induction cs generalizing acc with
  | nil => exact hacc
  | cons c rest ih =>
      refine ih _ (fun c' hc' => hsub c' (List.mem_cons_of_mem _ hc')) ?_
      intro hyou
      by_cases hq : (GameEngine.lineCells board c).count pl = 2 ∧
          (GameEngine.lineCells board c).count Cell.E = 1
      · have hcl : c ∈ lines := hsub c (List.mem_cons_self _ _)
        obtain ⟨i, j, k, hshape, -, -, -⟩ :=
          GameEngine.win_combinations_shape c (lines_eq ▸ hcl)
        subst hshape
        obtain ⟨hmem, hblank⟩ := threat_pos_spec board i j k hq.2
        refine ⟨_, ?_, [i, j, k], hcl, hq.1, hq.2, hmem, hblank⟩
        rw [threatStep_pos, if_pos hq]
      · rw [threatStep_pos, if_neg hq]
        rw [threatStep_you board opp pl acc c] at hyou
        exact hacc (hyou.resolve_right hq)

/-- Soundness of the full threat analysis for the player's own fast path. -/
theorem analyze_threats_sound (board : List Cell) (opp pl : Cell)
    (h : (analyze_threats board opp pl).you_can_win = true) :
    ∃ p, (analyze_threats board opp pl).your_win_pos = some p ∧
      winningThreat board pl p := by
  refine foldl_threat_sound board opp pl lines _ (fun c hc => hc) ?_ h
  intro hfalse
  cases hfalse

/-- Completeness of the full threat analysis. -/
theorem analyze_threats_complete (board : List Cell) (opp pl : Cell)
    (c : List Nat) (hc : c ∈ lines)
    (hq : (GameEngine.lineCells board c).count pl = 2 ∧
      (GameEngine.lineCells board c).count Cell.E = 1) :
    (analyze_threats board opp pl).you_can_win = true :=
  foldl_threat_complete board opp pl lines _ c hc hq

/-- Any position carrying a winning threat is a legal move. -/
theorem winningThreat_valid (board : List Cell) (mark : Cell) (p : Nat)
    (h : winningThreat board mark p) :
    ai_is_valid_move board (p : Int) = true := by
  obtain ⟨c, hc, -, -, hmem, hblank⟩ := h
  obtain ⟨i, j, k, hshape, hi, hj, hk⟩ :=
    GameEngine.win_combinations_shape c (lines_eq ▸ hc)
  subst hshape
  have hp : p < 9 := by
    rcases (by simpa using hmem : p = i ∨ p = j ∨ p = k) with rfl | rfl | rfl
      <;> omega
  unfold ai_is_valid_move
  rw [if_neg (by omega)]
  simpa using hblank

/-- The retry loop performs at most `fuel` transport calls. -/
theorem get_move_loop_calls_le (board : List Cell)
    (responses : Nat → ApiResponse) :
    ∀ fuel attempt, (get_move_loop board responses attempt fuel).2 ≤ fuel := by
  intro fuel
  induction fuel with
  | zero => intro attempt; simp [get_move_loop]
  | succ f ih =>
      intro attempt
      unfold get_move_loop
      cases call_api (responses attempt) with
      | ok move =>
          by_cases hv : ai_is_valid_move board move = true
          · simp [hv]
          · simp only [Bool.not_eq_true] at hv
            simp only [hv]
            by_cases hf : f ≠ 0
            · simpa [hf] using Nat.succ_le_succ (ih (attempt + 1))
            · simp [hf]
      | error e =>
          cases e with
          | transport =>
              by_cases hf : f ≠ 0
              · simpa [hf] using Nat.succ_le_succ (ih (attempt + 1))
              · simp [hf]
          | parse => simp

/-- A move the retry loop returns passed `_is_valid_move`. -/
theorem get_move_loop_ok_valid (board : List Cell)
    (responses : Nat → ApiResponse) :
    ∀ fuel attempt (m : Int),
      (get_move_loop board responses attempt fuel).1 = Except.ok m →
        ai_is_valid_move board m = true := by
  intro fuel
  induction fuel with
  | zero => intro attempt m h; exact Except.noConfusion h
  | succ f ih =>
      intro attempt m h
      unfold get_move_loop at h
      cases hc : call_api (responses attempt) with
      | ok move =>
          simp only [hc] at h
          by_cases hv : ai_is_valid_move board move = true
          · rw [if_pos hv] at h
            injection h with h'
            exact h' ▸ hv
          · by_cases hf : f ≠ 0
            · rw [if_neg hv, if_pos hf] at h
              exact ih (attempt + 1) m h
            · rw [if_neg hv, if_neg hf] at h
              exact Except.noConfusion h
      | error e =>
          cases e with
          | transport =>
              simp only [hc] at h
              by_cases hf : f ≠ 0
              · rw [if_pos hf] at h
                exact ih (attempt + 1) m h
              · rw [if_neg hf] at h
                exact Except.noConfusion h
          | parse =>
              simp only [hc] at h
              exact Except.noConfusion h

/-- A transport outcome the retry loop consumes as one attempt and retries
past while attempts remain: a transport failure (`httpx` error), or a
response parsed to a move that fails validation. -/
def consumesAttempt (board : List Cell) (resp : ApiResponse) : Prop :=
  call_api resp = Except.error CallErr.transport ∨
    ∃ m, call_api resp = Except.ok m ∧ ai_is_valid_move board m = false

/-- If the loop reaches attempt `k` — every earlier attempt consumed its
try and retried — and attempt `k`'s response is a parse failure, the
`AIServiceException` escapes at once: the loop ends with the parse error
after exactly `k + 1` transport calls, one per attempt reached. -/
theorem get_move_loop_parse_at (board : List Cell)
    (responses : Nat → ApiResponse) :
    ∀ (k fuel attempt : Nat), k < fuel →
      (∀ j < k, consumesAttempt board (responses (attempt + j))) →
      call_api (responses (attempt + k)) =
        Except.error CallErr.parse →
      get_move_loop board responses attempt fuel =
        (Except.error AIErr.parse, k + 1) := by
  intro k
  induction k with
  | zero =>
      intro fuel attempt hk hearlier hparse
      obtain ⟨f, rfl⟩ : ∃ f, fuel = f + 1 := ⟨fuel - 1, by omega⟩
      rw [Nat.add_zero] at hparse
      unfold get_move_loop
      simp only [hparse]
  | succ k ih =>
      intro fuel attempt hk hearlier hparse
      obtain ⟨f, rfl⟩ : ∃ f, fuel = f + 1 := ⟨fuel - 1, by omega⟩
      have hf : f ≠ 0 := by omega
      have hearly : ∀ j < k,
          consumesAttempt board (responses (attempt + 1 + j)) := by
        intro j hj
        have h := hearlier (j + 1) (by omega)
        rwa [show attempt + (j + 1) = attempt + 1 + j from by omega] at h
      have hp : call_api (responses (attempt + 1 + k)) =
          Except.error CallErr.parse := by
        rw [show attempt + 1 + k = attempt + (k + 1) from by omega]
        exact hparse
      have hrec := ih f (attempt + 1) (by omega) hearly hp
      unfold get_move_loop
      rcases hearlier 0 (by omega) with htr | ⟨m, hok, hinv⟩
      · rw [Nat.add_zero] at htr
        simp only [htr, hf, ne_eq, not_false_eq_true, if_true, hrec]
      · rw [Nat.add_zero] at hok
        simp only [hok]
        rw [if_neg (by simp [hinv]), if_pos hf, hrec]

/-- A move `get_move` returns passed `_is_valid_move` (fast path and loop
alike). -/
theorem get_move_ok_valid (board : List Cell) (player : Player)
    (difficulty : Difficulty) (responses : Nat → ApiResponse)
    (max_retries : Nat) (m : Int)
    (h : (get_move board player difficulty responses max_retries).1 =
      Except.ok m) :
    ai_is_valid_move board m = true := by
  unfold get_move at h
  by_cases hyou : (analyze_threats board
      (if player = Player.O then Cell.X else Cell.O)
      player.toCell).you_can_win = true
  · rw [if_pos hyou] at h
    obtain ⟨p, hp, hthreat⟩ := analyze_threats_sound _ _ _ hyou
    cases h
    rw [hp]
    exact winningThreat_valid board player.toCell p hthreat
  · rw [if_neg hyou] at h
    exact get_move_loop_ok_valid board responses max_retries 0 m h

end AIService

/-! ### Helper lemmas: the move-application protocol -/

theorem pyListSet_length {l : List Cell} {i : Int} {v : Cell}
    {l' : List Cell} (h : pyListSet l i v = some l') :
    l'.length = l.length := by
  unfold pyListSet at h
  split_ifs at h <;> first
    | exact Except.noConfusion h
    | (injection h with h'; rw [← h']; simp)

namespace GameService

set_option maxRecDepth 4096 in
/-- The human-win branch of `make_move`: commit the human move with
`FINISHED` and the found winner; the oracle is never invoked. -/
theorem make_move_human_wins (game : Game) (position : Int)
    (responses : Nat → AIService.ApiResponse) (max_retries : Nat)
    (b1 : List Cell) (w : Player)
    (h1 : game.status = GameStatus.IN_PROGRESS)
    (h2 : GameEngine.is_valid_move game.board position = true)
    (hb1 : GameEngine.make_move game.board position Player.X = some b1)
    (hw : GameEngine.check_winner b1 = some w) :
    make_move game position responses max_retries =
      ⟨{ game with
          board := b1, status := GameStatus.FINISHED, winner := some w },
        [⟨game.id, position, Player.X⟩],
        Except.ok ⟨position, Player.X, b1, GameStatus.FINISHED, some w,
          none⟩, 0⟩ := by
  unfold make_move
  rw [if_neg (by simp [h1]), if_neg (by simp [h2]), hb1]
  simp only [hw]

set_option maxRecDepth 4096 in
/-- The draw branch of `make_move`: the human move fills the board with no
winner; the oracle is never invoked. -/
theorem make_move_draw (game : Game) (position : Int)
    (responses : Nat → AIService.ApiResponse) (max_retries : Nat)
    (b1 : List Cell)
    (h1 : game.status = GameStatus.IN_PROGRESS)
    (h2 : GameEngine.is_valid_move game.board position = true)
    (hb1 : GameEngine.make_move game.board position Player.X = some b1)
    (hw : GameEngine.check_winner b1 = none)
    (hf : GameEngine.is_board_full b1 = true) :
    make_move game position responses max_retries =
      ⟨{ game with board := b1, status := GameStatus.DRAW },
        [⟨game.id, position, Player.X⟩],
        Except.ok ⟨position, Player.X, b1, GameStatus.DRAW, none, none⟩,
        0⟩ := by
  unfold make_move
  rw [if_neg (by simp [h1]), if_neg (by simp [h2]), hb1]
  simp only [hw, hf, if_true]

set_option maxRecDepth 4096 in
/-- The oracle-failure branch of `make_move`: the exception propagates and
the session closes without a commit, so nothing from this call — neither
the human board mutation nor the human `Move` row — is persisted. -/
theorem make_move_oracle_error (game : Game) (position : Int)
    (responses : Nat → AIService.ApiResponse) (max_retries : Nat)
    (b1 : List Cell) (e : AIService.AIErr)
    (h1 : game.status = GameStatus.IN_PROGRESS)
    (h2 : GameEngine.is_valid_move game.board position = true)
    (hb1 : GameEngine.make_move game.board position Player.X = some b1)
    (hw : GameEngine.check_winner b1 = none)
    (hf : GameEngine.is_board_full b1 = false)
    (h5 : (AIService.get_move b1 Player.O game.difficulty responses
      max_retries).1 = Except.error e) :
    make_move game position responses max_retries =
      ⟨game, [], Except.error (SvcErr.oracle e), 1⟩ := by
  rcases hp : AIService.get_move b1 Player.O game.difficulty responses
    max_retries with ⟨res, n⟩
  rw [hp] at h5
  have hres : res = Except.error e := h5
  subst hres
  unfold make_move
  rw [if_neg (by simp [h1]), if_neg (by simp [h2]), hb1]
  simp only [hw, hf, hp, Bool.false_eq_true, if_false]

set_option maxRecDepth 4096 in
/-- The common branch of `make_move`: human and oracle moves both applied,
terminal checks re-run, both `Move` rows committed. -/
theorem make_move_oracle_ok (game : Game) (position : Int)
    (responses : Nat → AIService.ApiResponse) (max_retries : Nat)
    (b1 b2 : List Cell) (ai_position : Int)
    (h1 : game.status = GameStatus.IN_PROGRESS)
    (h2 : GameEngine.is_valid_move game.board position = true)
    (hb1 : GameEngine.make_move game.board position Player.X = some b1)
    (hw : GameEngine.check_winner b1 = none)
    (hf : GameEngine.is_board_full b1 = false)
    (h5 : (AIService.get_move b1 Player.O game.difficulty responses
      max_retries).1 = Except.ok ai_position)
    (hb2 : GameEngine.make_move b1 ai_position Player.O = some b2) :
    make_move game position responses max_retries =
      let sw :=
        match GameEngine.check_winner b2 with
        | some w2 => (GameStatus.FINISHED, some w2)
        | none =>
            if GameEngine.is_board_full b2 then (GameStatus.DRAW, game.winner)
            else (game.status, game.winner)
      ⟨{ game with board := b2, status := sw.1, winner := sw.2 },
        [⟨game.id, position, Player.X⟩, ⟨game.id, ai_position, Player.O⟩],
        Except.ok ⟨position, Player.X, b2, sw.1, sw.2, some ai_position⟩,
        1⟩ := by
  rcases hp : AIService.get_move b1 Player.O game.difficulty responses
    max_retries with ⟨res, n⟩
  rw [hp] at h5
  have hres : res = Except.ok ai_position := h5
  subst hres
  unfold make_move
  rw [if_neg (by simp [h1]), if_neg (by simp [h2]), hb1]
  simp only [hw, hf, hp, hb2, Bool.false_eq_true, if_false]

/-- The terminal-game guard of `make_move`. -/
theorem make_move_game_over (game : Game) (position : Int)
    (responses : Nat → AIService.ApiResponse) (max_retries : Nat)
    (h : game.status ≠ GameStatus.IN_PROGRESS) :
    make_move game position responses max_retries =
      ⟨game, [], Except.error SvcErr.gameOver, 0⟩ := by
  unfold make_move
  rw [if_pos h]

/-- The validation guard of `make_move`. -/
theorem make_move_invalid (game : Game) (position : Int)
    (responses : Nat → AIService.ApiResponse) (max_retries : Nat)
    (h1 : game.status = GameStatus.IN_PROGRESS)
    (h2 : GameEngine.is_valid_move game.board position = false) :
    make_move game position responses max_retries =
      ⟨game, [], Except.error SvcErr.invalidMove, 0⟩ := by
  unfold make_move
  rw [if_neg (by simp [h1]), if_pos (by simp [h2])]

end GameService

/-- Unpacking a successful oracle-side validity check. -/
theorem AIService.ai_is_valid_move_iff (board : List Cell) (move : Int) :
    AIService.ai_is_valid_move board move = true ↔
      0 ≤ move ∧ move ≤ 8 ∧ board.getD move.toNat Cell.E = Cell.E := by
  unfold AIService.ai_is_valid_move
  split
  · constructor
    · intro h; cases h
    · intro ⟨h1, h2, _⟩; omega
  · simp only [decide_eq_true_eq]
    constructor
    · intro h; refine ⟨by omega, by omega, h⟩
    · intro ⟨_, _, h⟩; exact h

namespace GameService

/-- Data invariant of every game row this service produces: a 9-cell
board, and while the game is in progress the two marks are balanced and
`current_player` is still its initial `X` (nothing ever assigns it). -/
def Inv (g : Game) : Prop :=
  g.board.length = 9 ∧
    (g.status = GameStatus.IN_PROGRESS →
      g.board.count Cell.X = g.board.count Cell.O ∧
      g.current_player = Player.X)

/-- Every reachable game row satisfies the data invariant. -/
theorem reachable_inv (g : Game) (h : Reachable g) : Inv g := by
  induction h with
  | create user_id difficulty id t_created t_updated =>
      refine ⟨by simp [create_game], fun _ => ⟨?_, rfl⟩⟩
      simp [create_game]
  | step g position responses max_retries _ ih =>
      obtain ⟨hlen, hprog⟩ := ih
      by_cases hst : g.status = GameStatus.IN_PROGRESS
      · by_cases hv : GameEngine.is_valid_move g.board position = true
        · obtain ⟨hp0, hp8, hpe⟩ := (GameEngine.is_valid_move_iff _ _).mp hv
          have hb1 := GameEngine.make_move_of_valid g.board position
            Player.X hlen hv
          have hplt : position.toNat < g.board.length := by omega
          have hlen1 :
              (g.board.set position.toNat Player.X.toCell).length = 9 := by
            simp [hlen]
          cases hw : GameEngine.check_winner
              (g.board.set position.toNat Player.X.toCell) with
          | some w =>
              rw [make_move_human_wins g position responses max_retries _ w
                hst hv hb1 hw]
              exact ⟨hlen1, fun hfalse => by cases hfalse⟩
          | none =>
              by_cases hfull : GameEngine.is_board_full
                  (g.board.set position.toNat Player.X.toCell) = true
              · rw [make_move_draw g position responses max_retries _
                  hst hv hb1 hw hfull]
                exact ⟨hlen1, fun hfalse => by cases hfalse⟩
              · have hfull' : GameEngine.is_board_full
                    (g.board.set position.toNat Player.X.toCell) = false := by
                  simpa using hfull
                cases hg : (AIService.get_move
                    (g.board.set position.toNat Player.X.toCell) Player.O
                    g.difficulty responses max_retries).1 with
                | error e =>
                    rw [make_move_oracle_error g position responses
                      max_retries _ e hst hv hb1 hw hfull' hg]
                    exact ⟨hlen, hprog⟩
                | ok ai_position =>
                    obtain ⟨ha0, ha8, hae⟩ :=
                      (AIService.ai_is_valid_move_iff _ _).mp
                        (AIService.get_move_ok_valid _ _ _ _ _ _ hg)
                    have halt : ai_position.toNat <
                        (g.board.set position.toNat Player.X.toCell).length := by
                      rw [hlen1]; omega
                    have hb2 := GameEngine.make_move_nonneg
                      (g.board.set position.toNat Player.X.toCell)
                      ai_position Player.O ha0 halt
                    rw [make_move_oracle_ok g position responses max_retries
                      _ _ ai_position hst hv hb1 hw hfull' hg hb2]
                    have hlen2 :
                        ((g.board.set position.toNat Player.X.toCell).set
                          ai_position.toNat Player.O.toCell).length = 9 := by
                      simp [hlen]
                    cases hw2 : GameEngine.check_winner
                        ((g.board.set position.toNat Player.X.toCell).set
                          ai_position.toNat Player.O.toCell) with
                    | some w2 =>
                        simp only [hw2]
                        exact ⟨hlen2, fun hfalse => by cases hfalse⟩
                    | none =>
                        by_cases hfull2 : GameEngine.is_board_full
                            ((g.board.set position.toNat Player.X.toCell).set
                              ai_position.toNat Player.O.toCell) = true
                        · simp only [hw2, hfull2, if_true]
                          exact ⟨hlen2, fun hfalse => by cases hfalse⟩
                        · simp only [hw2, hfull2, Bool.false_eq_true,
                            if_false]
                          refine ⟨hlen2, fun _ => ?_⟩
                          obtain ⟨hcnt, hcur⟩ := hprog hst
                          constructor
                          · have hx1 : (g.board.set position.toNat
                                Player.X.toCell).count Cell.X =
                                g.board.count Cell.X + 1 :=
                              List.count_set_incr _ _ _ hplt
                                (by rw [hpe]; simp [Player.toCell])
                            have ho1 : (g.board.set position.toNat
                                Player.X.toCell).count Cell.O =
                                g.board.count Cell.O :=
                              List.count_set_other _ _ _ _
                                (by rw [hpe]; simp) (by simp [Player.toCell])
                            have ho2 : ((g.board.set position.toNat
                                Player.X.toCell).set ai_position.toNat
                                Player.O.toCell).count Cell.O =
                                (g.board.set position.toNat
                                  Player.X.toCell).count Cell.O + 1 :=
                              List.count_set_incr _ _ _ halt
                                (by rw [hae]; simp [Player.toCell])
                            have hx2 : ((g.board.set position.toNat
                                Player.X.toCell).set ai_position.toNat
                                Player.O.toCell).count Cell.X =
                                (g.board.set position.toNat
                                  Player.X.toCell).count Cell.X :=
                              List.count_set_other _ _ _ _
                                (by rw [hae]; simp) (by simp [Player.toCell])
                            rw [hx2, ho2, hx1, ho1, hcnt]
                          · exact hcur
        · have hv' : GameEngine.is_valid_move g.board position = false := by
            simpa using hv
          rw [make_move_invalid g position responses max_retries hst hv']
          exact ⟨hlen, hprog⟩
      · rw [make_move_game_over g position responses max_retries hst]
        exact ⟨hlen, hprog⟩

/-- Membership is preserved by the ordering insertion. -/
theorem mem_insertByCreatedDesc {x g : Game} {l : List Game}
    (h : x ∈ insertByCreatedDesc g l) : x = g ∨ x ∈ l := by
  induction l with
  | nil => simpa [insertByCreatedDesc] using h
  | cons a t ih =>
      unfold insertByCreatedDesc at h
      split at h
      · simpa using h
      · rcases List.mem_cons.mp h with rfl | hmem
        · exact Or.inr (List.mem_cons_self _ _)
        · rcases ih hmem with rfl | hx
          · exact Or.inl rfl
          · exact Or.inr (List.mem_cons_of_mem _ hx)

/-- The ordering insertion preserves descending `created_at`. -/
theorem insertByCreatedDesc_pairwise (g : Game) (l : List Game)
    (h : l.Pairwise (fun a b => b.created_at ≤ a.created_at)) :
    (insertByCreatedDesc g l).Pairwise
      (fun a b => b.created_at ≤ a.created_at) := by
  induction l with
  | nil => simp [insertByCreatedDesc]
  | cons a t ih =>
      rw [List.pairwise_cons] at h
      obtain ⟨ha, ht⟩ := h
      unfold insertByCreatedDesc
      split
      · rename_i hle
        rw [List.pairwise_cons]
        refine ⟨?_, List.pairwise_cons.mpr ⟨ha, ht⟩⟩
        intro y hy
        rcases List.mem_cons.mp hy with rfl | hmem
        · exact hle
        · exact le_trans (ha y hmem) hle
      · rename_i hgt
        rw [List.pairwise_cons]
        refine ⟨?_, ih ht⟩
        intro y hy
        rcases mem_insertByCreatedDesc hy with rfl | hmem
        · omega
        · exact ha y hmem

/-- The modelled `ORDER BY created_at DESC` sorts descending. -/
theorem sortByCreatedDesc_pairwise (l : List Game) :
    (sortByCreatedDesc l).Pairwise
      (fun a b => b.created_at ≤ a.created_at) := by
  induction l with
  | nil => simp [sortByCreatedDesc]
  | cons a t ih => exact insertByCreatedDesc_pairwise a _ ih

/-- Sorting adds no rows. -/
theorem mem_sortByCreatedDesc {x : Game} {l : List Game}
    (h : x ∈ sortByCreatedDesc l) : x ∈ l := by
  induction l with
  | nil => exact absurd h (List.not_mem_nil x)
  | cons a t ih =>
      rcases mem_insertByCreatedDesc h with rfl | hmem
      · exact List.mem_cons_self _ _
      · exact List.mem_cons_of_mem _ (ih hmem)

/-- Every row `list_games` returns comes from the table. -/
theorem list_games_mem {x : Game} {games : List Game}
    {user_id skip limit : Nat}
    (h : x ∈ list_games games user_id skip limit) : x ∈ games := by
  unfold list_games at h
  have h1 := List.drop_subset _ _ (List.take_subset _ _ h)
  have h2 := mem_sortByCreatedDesc h1
  exact (List.mem_filter.mp h2).1

/-- The rows `list_games` returns are pairwise descending in
`created_at`. -/
theorem list_games_pairwise_created (games : List Game)
    (user_id skip limit : Nat) :
    (list_games games user_id skip limit).Pairwise
      (fun a b => b.created_at ≤ a.created_at) := by
  unfold list_games
  exact ((sortByCreatedDesc_pairwise _).sublist
    (List.drop_sublist _ _)).sublist (List.take_sublist _ _)

end GameService

/-! ### The claims -/

/-- C2: on every board where some line has exactly two cells holding the
automated player's mark and its third cell empty, `get_move` returns the
empty position of such a line and performs zero transport calls — no
`_call_api` call and no retry attempt is consumed. -/
theorem C2_fast_path_wins (board : List Cell) (player : Player)
    (difficulty : Difficulty) (responses : Nat → AIService.ApiResponse)
    (max_retries : Nat)
    (h : ∃ c ∈ AIService.lines,
      (GameEngine.lineCells board c).count player.toCell = 2 ∧
      (GameEngine.lineCells board c).count Cell.E = 1) :
    ∃ p : Nat,
      AIService.get_move board player difficulty responses max_retries =
        (Except.ok (p : Int), 0) ∧
      AIService.winningThreat board player.toCell p := by
  obtain ⟨c, hc, hq⟩ := h
  have hyou := AIService.analyze_threats_complete board
    (if player = Player.O then Cell.X else Cell.O) player.toCell c hc hq
  obtain ⟨p, hp, hthreat⟩ := AIService.analyze_threats_sound _ _ _ hyou
  refine ⟨p, ?_, hthreat⟩
  unfold AIService.get_move
  simp only [hyou, if_true, hp, Option.getD_some]

/-- C2 witness: a board with the automated player's `O` at 0 and 1 and
cell 2 empty takes the fast path to position 2 with zero transport
calls. -/
theorem C2_witness :
    (∃ c ∈ AIService.lines,
      (GameEngine.lineCells
          [Cell.O, Cell.O, Cell.E, Cell.E, Cell.E, Cell.E, Cell.E, Cell.E,
            Cell.E] c).count Player.O.toCell = 2 ∧
      (GameEngine.lineCells
          [Cell.O, Cell.O, Cell.E, Cell.E, Cell.E, Cell.E, Cell.E, Cell.E,
            Cell.E] c).count Cell.E = 1) ∧
    ∃ p : Nat,
      AIService.get_move
          [Cell.O, Cell.O, Cell.E, Cell.E, Cell.E, Cell.E, Cell.E, Cell.E,
            Cell.E] Player.O Difficulty.MEDIUM
          (fun _ => AIService.ApiResponse.httpError) 3 =
        (Except.ok (p : Int), 0) ∧
      AIService.winningThreat
        [Cell.O, Cell.O, Cell.E, Cell.E, Cell.E, Cell.E, Cell.E, Cell.E,
          Cell.E] Player.O.toCell p :=
  ⟨by decide,
    C2_fast_path_wins _ Player.O Difficulty.MEDIUM
      (fun _ => AIService.ApiResponse.httpError) 3 (by decide)⟩

/-- C3 counterexample: with no fast path, a budget of 3 attempts and a
first response whose text has no digit, `get_move` surfaces the parse
failure directly after a single transport call — it does not consume the
attempt and retry, and the error is not the retries-exhausted
`OracleError`. -/
theorem C3_counterexample :
    (AIService.get_move (List.replicate 9 Cell.E) Player.O
        Difficulty.MEDIUM (fun _ => AIService.ApiResponse.ok "hello")
        3).1 = Except.error AIService.AIErr.parse ∧
    (AIService.get_move (List.replicate 9 Cell.E) Player.O
        Difficulty.MEDIUM (fun _ => AIService.ApiResponse.ok "hello")
        3).2 = 1 ∧
    AIService.AIErr.parse ≠ AIService.AIErr.maxRetries :=
  ⟨rfl, rfl, by decide⟩

/-- C3 amended: a parse failure (digit-free text or malformed structure)
raises `AIServiceException`, which the transport loop does not catch (it
only catches `httpx` errors): whatever retried attempts preceded it —
transport failures or invalid parsed moves — the exception propagates
out of `get_move` on the very attempt where the parse failure occurs,
after exactly one transport call on that attempt (`k + 1` calls in
total), instead of being consumed as a retried attempt. -/
theorem C3_parse_error_surfaces (board : List Cell) (player : Player)
    (difficulty : Difficulty) (responses : Nat → AIService.ApiResponse)
    (max_retries k : Nat)
    (hfast : (AIService.analyze_threats board
        (if player = Player.O then Cell.X else Cell.O)
        player.toCell).you_can_win = false)
    (hk : k < max_retries)
    (hearlier : ∀ j < k, AIService.consumesAttempt board (responses j))
    (hparse : AIService.call_api (responses k) =
      Except.error AIService.CallErr.parse) :
    AIService.get_move board player difficulty responses max_retries =
      (Except.error AIService.AIErr.parse, k + 1) := by
  unfold AIService.get_move
  simp only [hfast, Bool.false_eq_true, if_false]
  refine AIService.get_move_loop_parse_at board responses k max_retries 0
    hk ?_ ?_
  · intro j hj
    rw [Nat.zero_add]
    exact hearlier j hj
  · rw [Nat.zero_add]
    exact hparse

/-- C3 witness: the first attempt's transport fails (consuming the
attempt and retrying), the second attempt's response text has no digit;
with a budget of 3 the parse failure surfaces directly after the second
call — two calls in total, one attempt still unspent. -/
theorem C3_witness :
    (AIService.analyze_threats (List.replicate 9 Cell.E)
        (if Player.O = Player.O then Cell.X else Cell.O)
        Player.O.toCell).you_can_win = false ∧
    1 < 3 ∧
    (∀ j < 1, AIService.consumesAttempt (List.replicate 9 Cell.E)
      ((fun n => match n with
        | 0 => AIService.ApiResponse.httpError
        | _ => AIService.ApiResponse.ok "done") j)) ∧
    AIService.call_api ((fun n => match n with
        | 0 => AIService.ApiResponse.httpError
        | _ => AIService.ApiResponse.ok "done") 1) =
      Except.error AIService.CallErr.parse ∧
    AIService.get_move (List.replicate 9 Cell.E) Player.O Difficulty.EASY
        (fun n => match n with
          | 0 => AIService.ApiResponse.httpError
          | _ => AIService.ApiResponse.ok "done") 3 =
      (Except.error AIService.AIErr.parse, 2) := by
  have hearlier : ∀ j < 1,
      AIService.consumesAttempt (List.replicate 9 Cell.E)
        ((fun n => match n with
          | 0 => AIService.ApiResponse.httpError
          | _ => AIService.ApiResponse.ok "done") j) := by
    intro j hj
    have hj0 : j = 0 := by omega
    subst hj0
    exact Or.inl rfl
  exact ⟨by decide, by omega, hearlier, rfl,
    C3_parse_error_surfaces (List.replicate 9 Cell.E) Player.O
      Difficulty.EASY
      (fun n => match n with
        | 0 => AIService.ApiResponse.httpError
        | _ => AIService.ApiResponse.ok "done") 3 1 (by decide) (by omega)
      hearlier rfl⟩

/-- C4: one `get_move` invocation performs at most `max_retries` transport
calls (`_call_api` invocations), on every execution path — fast path,
valid and invalid parsed moves, parse failures, transport failures. -/
theorem C4_transport_calls_bounded (board : List Cell) (player : Player)
    (difficulty : Difficulty) (responses : Nat → AIService.ApiResponse)
    (max_retries : Nat) :
    (AIService.get_move board player difficulty responses max_retries).2 ≤
      max_retries := by
  simp only [AIService.get_move]
  by_cases hyou : (AIService.analyze_threats board
      (if player = Player.O then Cell.X else Cell.O)
      player.toCell).you_can_win = true
  · rw [if_pos hyou]
    exact Nat.zero_le _
  · rw [if_neg hyou]
    exact AIService.get_move_loop_calls_le board responses max_retries 0

/-- C1 counterexample: a fresh in-progress game, a valid human move at
position 4, and an oracle whose transport fails on all 3 attempts. The
call raises `OracleError`, but because `make_move` only commits after the
oracle call, nothing is persisted: the stored board still has no mark at
position 4 and no `Move` row was committed — contradicting the claim that
the human move is durably persisted when the oracle fails. -/
theorem C1_counterexample :
    (GameService.make_move (GameService.create_game 7 Difficulty.MEDIUM 1 0 0)
        4 (fun _ => AIService.ApiResponse.httpError) 3).result =
      Except.error
        (GameService.SvcErr.oracle AIService.AIErr.transport) ∧
    (GameService.make_move (GameService.create_game 7 Difficulty.MEDIUM 1 0 0)
        4 (fun _ => AIService.ApiResponse.httpError)
        3).committedGame.board.getD 4 Cell.E = Cell.E ∧
    Cell.E ≠ Player.X.toCell ∧
    (GameService.make_move (GameService.create_game 7 Difficulty.MEDIUM 1 0 0)
        4 (fun _ => AIService.ApiResponse.httpError) 3).committedMoves =
      [] :=
  ⟨rfl, rfl, by decide, rfl⟩

/-- C1 amended: when the human move has been applied in-session and the
oracle then fails, the exception propagates before any commit, so the
persisted `GameRecord` is exactly the pre-call record: the human move and
its `Move` row are rolled back with the session (status therefore still
`IN_PROGRESS`, but without the human mark). -/
theorem C1_oracle_failure_commits_nothing (game : GameService.Game)
    (position : Int) (responses : Nat → AIService.ApiResponse)
    (max_retries : Nat) (b1 : List Cell) (e : AIService.AIErr)
    (h1 : game.status = GameStatus.IN_PROGRESS)
    (h2 : GameEngine.is_valid_move game.board position = true)
    (hb1 : GameEngine.make_move game.board position Player.X = some b1)
    (hw : GameEngine.check_winner b1 = none)
    (hf : GameEngine.is_board_full b1 = false)
    (h5 : (AIService.get_move b1 Player.O game.difficulty responses
      max_retries).1 = Except.error e) :
    (GameService.make_move game position responses max_retries).result =
      Except.error (GameService.SvcErr.oracle e) ∧
    (GameService.make_move game position responses
      max_retries).committedGame = game ∧
    (GameService.make_move game position responses
      max_retries).committedMoves = [] := by
  rw [GameService.make_move_oracle_error game position responses max_retries
    b1 e h1 h2 hb1 hw hf h5]
  exact ⟨rfl, rfl, rfl⟩

/-- C1 witness: the amended rollback semantics at the counterexample's
input, with the human move at 4 producing the single-`X` board. -/
theorem C1_witness :
    (GameService.create_game 7 Difficulty.MEDIUM 1 0 0).status =
      GameStatus.IN_PROGRESS ∧
    GameEngine.is_valid_move
      (GameService.create_game 7 Difficulty.MEDIUM 1 0 0).board 4 = true ∧
    GameEngine.make_move
        (GameService.create_game 7 Difficulty.MEDIUM 1 0 0).board 4
        Player.X =
      some [Cell.E, Cell.E, Cell.E, Cell.E, Cell.X, Cell.E, Cell.E, Cell.E,
        Cell.E] ∧
    (GameService.make_move (GameService.create_game 7 Difficulty.MEDIUM 1 0 0)
        4 (fun _ => AIService.ApiResponse.httpError) 3).committedGame =
      GameService.create_game 7 Difficulty.MEDIUM 1 0 0 :=
  ⟨rfl, by decide, by decide,
    (C1_oracle_failure_commits_nothing
      (GameService.create_game 7 Difficulty.MEDIUM 1 0 0) 4
      (fun _ => AIService.ApiResponse.httpError) 3
      [Cell.E, Cell.E, Cell.E, Cell.E, Cell.X, Cell.E, Cell.E, Cell.E,
        Cell.E]
      AIService.AIErr.transport rfl (by decide) (by decide) (by decide)
      (by decide) rfl).2.1⟩

/-- C5: when the board after the human `X` move contains a winning line
(on an in-progress game whose board had none before), the call commits
`FINISHED` with the human as winner, returns that result, and never
invokes the oracle. -/
theorem C5_human_win_skips_oracle (game : GameService.Game)
    (position : Int) (responses : Nat → AIService.ApiResponse)
    (max_retries : Nat) (b1 : List Cell) (w : Player)
    (h1 : game.status = GameStatus.IN_PROGRESS)
    (hlen : game.board.length = 9)
    (h0 : GameEngine.check_winner game.board = none)
    (h2 : GameEngine.is_valid_move game.board position = true)
    (hb1 : GameEngine.make_move game.board position Player.X = some b1)
    (hw : GameEngine.check_winner b1 = some w) :
    w = Player.X ∧
    (GameService.make_move game position responses max_retries).result =
      Except.ok ⟨position, Player.X, b1, GameStatus.FINISHED,
        some Player.X, none⟩ ∧
    (GameService.make_move game position responses
      max_retries).committedGame.status = GameStatus.FINISHED ∧
    (GameService.make_move game position responses
      max_retries).committedGame.winner = some Player.X ∧
    (GameService.make_move game position responses
      max_retries).committedGame.board = b1 ∧
    (GameService.make_move game position responses
      max_retries).committedMoves = [⟨game.id, position, Player.X⟩] ∧
    (GameService.make_move game position responses
      max_retries).oracleCalls = 0 := by
  obtain ⟨hp0, hp8, hpe⟩ := (GameEngine.is_valid_move_iff _ _).mp h2
  have hb1' := GameEngine.make_move_of_valid game.board position Player.X
    hlen h2
  rw [hb1'] at hb1
  injection hb1 with hb1eq
  have hwx : w = Player.X := by
    refine GameEngine.check_winner_set game.board position.toNat Player.X w
      (by omega) h0 ?_
    rw [hb1eq]
    exact hw
  subst hwx
  rw [GameService.make_move_human_wins game position responses max_retries
    b1 Player.X h1 h2 (by rw [hb1', hb1eq]) hw]
  exact ⟨rfl, rfl, rfl, rfl, rfl, rfl, rfl⟩

/-- C5 witness: `X` at 0 and 1, human plays 2 and completes the top row;
the game finishes with winner `X` and zero oracle invocations. -/
theorem C5_witness :
    (⟨1, 7, [Cell.X, Cell.X, Cell.E, Cell.O, Cell.O, Cell.E, Cell.E,
        Cell.E, Cell.E], GameStatus.IN_PROGRESS, Player.X, none,
        Difficulty.MEDIUM, 0, 0⟩ : GameService.Game).status =
      GameStatus.IN_PROGRESS ∧
    GameEngine.check_winner
        [Cell.X, Cell.X, Cell.E, Cell.O, Cell.O, Cell.E, Cell.E, Cell.E,
          Cell.E] = none ∧
    GameEngine.check_winner
        [Cell.X, Cell.X, Cell.X, Cell.O, Cell.O, Cell.E, Cell.E, Cell.E,
          Cell.E] = some Player.X ∧
    (GameService.make_move
        ⟨1, 7, [Cell.X, Cell.X, Cell.E, Cell.O, Cell.O, Cell.E, Cell.E,
          Cell.E, Cell.E], GameStatus.IN_PROGRESS, Player.X, none,
          Difficulty.MEDIUM, 0, 0⟩ 2
        (fun _ => AIService.ApiResponse.httpError) 3).oracleCalls = 0 ∧
    (GameService.make_move
        ⟨1, 7, [Cell.X, Cell.X, Cell.E, Cell.O, Cell.O, Cell.E, Cell.E,
          Cell.E, Cell.E], GameStatus.IN_PROGRESS, Player.X, none,
          Difficulty.MEDIUM, 0, 0⟩ 2
        (fun _ => AIService.ApiResponse.httpError)
        3).committedGame.winner = some Player.X := by
  have h := C5_human_win_skips_oracle
    ⟨1, 7, [Cell.X, Cell.X, Cell.E, Cell.O, Cell.O, Cell.E, Cell.E,
      Cell.E, Cell.E], GameStatus.IN_PROGRESS, Player.X, none,
      Difficulty.MEDIUM, 0, 0⟩ 2
    (fun _ => AIService.ApiResponse.httpError) 3
    [Cell.X, Cell.X, Cell.X, Cell.O, Cell.O, Cell.E, Cell.E, Cell.E,
      Cell.E] Player.X rfl rfl (by decide) (by decide) (by decide)
    (by decide)
  exact ⟨rfl, by decide, by decide, h.2.2.2.2.2.2, h.2.2.2.1⟩

/-- C6: on every 9-cell board, `check_winner` returns a mark exactly when
some fixed line is filled with it: a returned mark `m` fills the first
line (in the fixed enumeration order) that any mark fills, with every
earlier line filled by no mark; and `check_winner` returns `none` exactly
when no line is filled by any mark. -/
theorem C6_check_winner_first_line (board : List Cell)
    (hlen : board.length = 9) :
    (∀ m, GameEngine.check_winner board = some m →
      ∃ l₁ c l₂, GameEngine.WIN_COMBINATIONS = l₁ ++ c :: l₂ ∧
        GameEngine.lineFilledWith board c m ∧
        ∀ c' ∈ l₁, ∀ m', ¬ GameEngine.lineFilledWith board c' m') ∧
    (GameEngine.check_winner board = none ↔
      ∀ c ∈ GameEngine.WIN_COMBINATIONS, ∀ m,
        ¬ GameEngine.lineFilledWith board c m) := by
  constructor
  · intro m h
    obtain ⟨l₁, c, l₂, heq, hw, hnone⟩ :=
      GameEngine.check_winner_aux_eq_some board _ m h
    have hc : c ∈ GameEngine.WIN_COMBINATIONS := by
      rw [heq]; exact List.mem_append_right _ (List.mem_cons_self _ _)
    obtain ⟨i, j, k, hshape, -, -, -⟩ :=
      GameEngine.win_combinations_shape c hc
    subst hshape
    refine ⟨l₁, _, l₂, heq,
      (GameEngine.comboWinner_some_iff board i j k m).mp hw, ?_⟩
    intro c' hc' m'
    have hc'w : c' ∈ GameEngine.WIN_COMBINATIONS := by
      rw [heq]; exact List.mem_append_left _ hc'
    obtain ⟨i', j', k', hshape', -, -, -⟩ :=
      GameEngine.win_combinations_shape c' hc'w
    subst hshape'
    exact (GameEngine.comboWinner_none_iff board i' j' k').mp
      (hnone _ hc') m'
  · constructor
    · intro h c hc m
      obtain ⟨i, j, k, hshape, -, -, -⟩ :=
        GameEngine.win_combinations_shape c hc
      subst hshape
      exact (GameEngine.comboWinner_none_iff board i j k).mp
        ((GameEngine.check_winner_aux_eq_none_iff board _).mp h _ hc) m
    · intro h
      refine (GameEngine.check_winner_aux_eq_none_iff board _).mpr ?_
      intro c hc
      obtain ⟨i, j, k, hshape, -, -, -⟩ :=
        GameEngine.win_combinations_shape c hc
      subst hshape
      exact (GameEngine.comboWinner_none_iff board i j k).mpr (h _ hc)

/-- C6 witness: the characterization at a board with `O` filling the
middle column. -/
theorem C6_witness :
    ([Cell.X, Cell.O, Cell.X, Cell.E, Cell.O, Cell.X, Cell.E, Cell.O,
        Cell.E] : List Cell).length = 9 ∧
    GameEngine.check_winner
        [Cell.X, Cell.O, Cell.X, Cell.E, Cell.O, Cell.X, Cell.E, Cell.O,
          Cell.E] = some Player.O ∧
    (∀ m, GameEngine.check_winner
        [Cell.X, Cell.O, Cell.X, Cell.E, Cell.O, Cell.X, Cell.E, Cell.O,
          Cell.E] = some m →
      ∃ l₁ c l₂, GameEngine.WIN_COMBINATIONS = l₁ ++ c :: l₂ ∧
        GameEngine.lineFilledWith
          [Cell.X, Cell.O, Cell.X, Cell.E, Cell.O, Cell.X, Cell.E, Cell.O,
            Cell.E] c m ∧
        ∀ c' ∈ l₁, ∀ m', ¬ GameEngine.lineFilledWith
          [Cell.X, Cell.O, Cell.X, Cell.E, Cell.O, Cell.X, Cell.E, Cell.O,
            Cell.E] c' m') :=
  ⟨rfl, by decide,
    (C6_check_winner_first_line
      [Cell.X, Cell.O, Cell.X, Cell.E, Cell.O, Cell.X, Cell.E, Cell.O,
        Cell.E] rfl).1⟩

/-- The game row left by a human move at 0, an oracle move parsed from
response text picking 3, a human move at 1, an oracle move at 4, and a
winning human move at 2: board `XXXOO....`, `FINISHED`, winner `X`. -/
def gC7 : GameService.Game :=
  (GameService.make_move
    ((GameService.make_move
      ((GameService.make_move
        (GameService.create_game 7 Difficulty.MEDIUM 1 0 0) 0
        (fun _ => AIService.ApiResponse.ok "3") 3).committedGame) 1
      (fun _ => AIService.ApiResponse.ok "4") 3).committedGame) 2
    (fun _ => AIService.ApiResponse.ok "5") 3).committedGame

/-- C7 counterexample: `gC7` is reachable by `create_game` followed by
three successful `make_move` calls, yet its stored `current_player` is
`X` while its board holds three `X` and two `O` — by move-count parity it
would be `O`'s turn. `make_move` never assigns `current_player`, so the
claimed consistency fails once a call ends the game on the human move. -/
theorem C7_counterexample :
    GameService.Reachable gC7 ∧
    gC7.current_player ≠ GameService.parityPlayer gC7.board := by
  constructor
  · exact GameService.Reachable.step _ 2
      (fun _ => AIService.ApiResponse.ok "5") 3
      (GameService.Reachable.step _ 1
        (fun _ => AIService.ApiResponse.ok "4") 3
        (GameService.Reachable.step _ 0
          (fun _ => AIService.ApiResponse.ok "3") 3
          (GameService.Reachable.create 7 Difficulty.MEDIUM 1 0 0)))
  · decide

/-- C7 amended: for every reachable game row whose completed operation
left it `IN_PROGRESS`, the stored `current_player` (always `X`) matches
the mark whose turn it is by cell counts, because on such rows the `X`
and `O` counts are equal. On rows a call left terminal the stored
`current_player` need not match parity. -/
theorem C7_parity_while_in_progress (g : GameService.Game)
    (hg : GameService.Reachable g)
    (hst : g.status = GameStatus.IN_PROGRESS) :
    g.current_player = GameService.parityPlayer g.board := by
  obtain ⟨-, hprog⟩ := GameService.reachable_inv g hg
  obtain ⟨hcnt, hcur⟩ := hprog hst
  rw [hcur, GameService.parityPlayer, if_pos hcnt]

/-- C7 witness: a freshly created game is reachable, in progress, and its
`current_player` matches parity. -/
theorem C7_witness :
    GameService.Reachable (GameService.create_game 7 Difficulty.HARD 2 5 6) ∧
    (GameService.create_game 7 Difficulty.HARD 2 5 6).status =
      GameStatus.IN_PROGRESS ∧
    (GameService.create_game 7 Difficulty.HARD 2 5 6).current_player =
      GameService.parityPlayer
        (GameService.create_game 7 Difficulty.HARD 2 5 6).board :=
  ⟨GameService.Reachable.create 7 Difficulty.HARD 2 5 6, rfl,
    C7_parity_while_in_progress _
      (GameService.Reachable.create 7 Difficulty.HARD 2 5 6) rfl⟩

/-- C8: whenever applying a move to a 9-cell board succeeds, validating
the same position on the resulting board fails: the addressed cell now
holds a mark (in-range positions) or the position itself is out of the
accepted range (negative positions). -/
theorem C8_apply_then_validate_false (board : List Cell) (position : Int)
    (player : Player) (hlen : board.length = 9) (board' : List Cell)
    (h : GameEngine.make_move board position player = some board') :
    GameEngine.is_valid_move board' position = false := by
  by_cases h0 : 0 ≤ position
  · have hlt : position.toNat < board.length := by
      by_contra hge
      unfold GameEngine.make_move pyListSet at h
      rw [if_pos h0, if_neg hge] at h
      exact Option.noConfusion h
    rw [GameEngine.make_move_nonneg board position player h0 hlt] at h
    injection h with h'
    have h8 : position ≤ 8 := by omega
    unfold GameEngine.is_valid_move
    rw [if_neg (by omega)]
    rw [← h', List.getD_set_self _ _ _ _ hlt]
    simp [Player.toCell_ne_E]
  · unfold GameEngine.is_valid_move
    rw [if_pos (Or.inl (by omega))]

/-- C8 witness: placing `X` at position 4 of the empty board makes a
revalidation of position 4 fail. -/
theorem C8_witness :
    (List.replicate 9 Cell.E).length = 9 ∧
    GameEngine.make_move (List.replicate 9 Cell.E) 4 Player.X =
      some [Cell.E, Cell.E, Cell.E, Cell.E, Cell.X, Cell.E, Cell.E, Cell.E,
        Cell.E] ∧
    GameEngine.is_valid_move
      [Cell.E, Cell.E, Cell.E, Cell.E, Cell.X, Cell.E, Cell.E, Cell.E,
        Cell.E] 4 = false :=
  ⟨rfl, by decide,
    C8_apply_then_validate_false (List.replicate 9 Cell.E) 4 Player.X rfl
      _ (by decide)⟩

/-- C9 counterexample: two rows the application itself created (both
reachable). `created_at` and `updated_at` come from separate clock
samples, so the second row was created at instant 3 but its `updated_at`
sample landed at 6, while the first row has both at 5. The query orders
by `created_at` descending, returning the instant-5 row first — yet its
`updated_at` (5) is smaller than the next row's (6), violating the
claimed most-recently-updated-first adjacency. -/
theorem C9_counterexample :
    (∀ g ∈ [GameService.create_game 7 Difficulty.MEDIUM 1 5 5,
        GameService.create_game 7 Difficulty.MEDIUM 2 3 6],
      GameService.Reachable g) ∧
    GameService.list_games
        [GameService.create_game 7 Difficulty.MEDIUM 1 5 5,
          GameService.create_game 7 Difficulty.MEDIUM 2 3 6] 7 0 100 =
      [GameService.create_game 7 Difficulty.MEDIUM 1 5 5,
        GameService.create_game 7 Difficulty.MEDIUM 2 3 6] ∧
    ¬ (GameService.create_game 7 Difficulty.MEDIUM 2 3 6).updated_at ≤
        (GameService.create_game 7 Difficulty.MEDIUM 1 5 5).updated_at := by
  refine ⟨?_, by decide, by decide⟩
  intro g hg
  rcases List.mem_cons.mp hg with rfl | hg'
  · exact GameService.Reachable.create 7 Difficulty.MEDIUM 1 5 5
  rcases List.mem_cons.mp hg' with rfl | hg''
  · exact GameService.Reachable.create 7 Difficulty.MEDIUM 2 3 6
  · exact absurd hg'' (List.not_mem_nil g)

/-- C9 amended: `list_games` returns the caller's rows ordered
most-recently-created first — the query sorts on `created_at` descending,
so every adjacent pair of returned records is non-increasing in
`created_at` (not in `updated_at`, whose independent creation-time clock
sample can break the claimed order). -/
theorem C9_list_games_created_order (games : List GameService.Game)
    (user_id skip limit : Nat) :
    (GameService.list_games games user_id skip limit).Chain'
      (fun earlier later => later.created_at ≤ earlier.created_at) :=
  List.Pairwise.chain'
    (GameService.list_games_pairwise_created games user_id skip limit)

/-- C10: `make_move` has no bounds or occupancy check of its own: every
position in `[-9, -1]` fails validation, yet `make_move` succeeds on it
and overwrites cell `9 + position` (Python negative indexing) with the
mark, leaving every other cell unchanged. -/
theorem C10_negative_index_overwrite (board : List Cell) (position : Int)
    (player : Player) (hlen : board.length = 9)
    (hlo : -9 ≤ position) (hhi : position ≤ -1) :
    GameEngine.is_valid_move board position = false ∧
    ∃ board', GameEngine.make_move board position player = some board' ∧
      board'.length = 9 ∧
      board'.getD (9 + position).toNat Cell.E = player.toCell ∧
      ∀ j : Nat, j < 9 → j ≠ (9 + position).toNat →
        board'.getD j Cell.E = board.getD j Cell.E := by
  refine ⟨?_, board.set (9 + position).toNat player.toCell, ?_, ?_, ?_, ?_⟩
  · unfold GameEngine.is_valid_move
    rw [if_pos (Or.inl (by omega))]
  · unfold GameEngine.make_move pyListSet
    rw [if_neg (by omega), if_pos (by omega)]
    have hidx : board.length - (-position).toNat = (9 + position).toNat := by
      omega
    rw [hidx]
  · simp [hlen]
  · exact List.getD_set_self _ _ _ _ (by omega)
  · intro j hj hne
    exact List.getD_set_ne _ (fun hh => hne hh.symm) _ _

/-- C10 witness: position `-3` on the empty board fails validation but
`make_move` writes `O` into cell 6. -/
theorem C10_witness :
    (List.replicate 9 Cell.E).length = 9 ∧
    (-9 : Int) ≤ -3 ∧ (-3 : Int) ≤ -1 ∧
    GameEngine.is_valid_move (List.replicate 9 Cell.E) (-3) = false ∧
    ∃ board',
      GameEngine.make_move (List.replicate 9 Cell.E) (-3) Player.O =
        some board' ∧
      board'.length = 9 ∧
      board'.getD (9 + (-3) : Int).toNat Cell.E = Player.O.toCell ∧
      ∀ j : Nat, j < 9 → j ≠ ((9 + (-3) : Int)).toNat →
        board'.getD j Cell.E = (List.replicate 9 Cell.E).getD j Cell.E :=
  ⟨rfl, by omega, by omega,
    C10_negative_index_overwrite (List.replicate 9 Cell.E) (-3) Player.O rfl
      (by omega) (by omega)⟩

end TicTacToe
